import Mathlib

/-!
Shallow embedding of the FastSLAM 1.0 implementation in src/python_slam.py.

Modelling conventions:
* Python floats are modelled by real numbers.
* Python runtime exceptions are modelled by Option: a function that can
  raise (np.linalg.inv raising LinAlgError on an exactly singular matrix,
  math.sqrt raising ValueError on a negative argument, float division by
  zero raising ZeroDivisionError, list indexing raising IndexError) returns
  none in the raising cases and some v otherwise.
* The process-wide random number generator is modelled by explicit oracle
  arguments: predict receives the list of sampled noisy controls, resample
  receives the sampled start index and the list of sampled step sizes.
* Python percent on floats with a positive modulus is a - m * floor (a / m).
-/

noncomputable section

open Real

/-- Python float modulo: a % m = a - m * floor (a / m). -/
def pymod (a m : ℝ) : ℝ := a - m * (⌊a / m⌋ : ℤ)

/-- math.atan2 (y, x): four-quadrant arctangent. -/
def pyatan2 (y x : ℝ) : ℝ :=
  if 0 < x then Real.arctan (y / x)
  else if x < 0 then
    (if 0 ≤ y then Real.arctan (y / x) + Real.pi else Real.arctan (y / x) - Real.pi)
  else (if 0 < y then Real.pi / 2 else if y < 0 then -(Real.pi / 2) else 0)

/-- A 2 by 2 real matrix in row-major order: [[a, b], [c, d]]. -/
structure Mat2 where
  a : ℝ
  b : ℝ
  c : ℝ
  d : ℝ

namespace Mat2

/-- np.linalg.det for a 2 by 2 matrix. -/
def det (M : Mat2) : ℝ := M.a * M.d - M.b * M.c

/-- Matrix transpose (numpy .T). -/
def transpose (M : Mat2) : Mat2 := ⟨M.a, M.c, M.b, M.d⟩

/-- np.dot (A, B) for two 2 by 2 matrices. -/
def mul (M N : Mat2) : Mat2 :=
  ⟨M.a * N.a + M.b * N.c, M.a * N.b + M.b * N.d,
   M.c * N.a + M.d * N.c, M.c * N.b + M.d * N.d⟩

/-- Entrywise sum of two 2 by 2 matrices. -/
def add (M N : Mat2) : Mat2 := ⟨M.a + N.a, M.b + N.b, M.c + N.c, M.d + N.d⟩

/-- Entrywise difference of two 2 by 2 matrices. -/
def sub (M N : Mat2) : Mat2 := ⟨M.a - N.a, M.b - N.b, M.c - N.c, M.d - N.d⟩

/-- np.eye (2). -/
def id2 : Mat2 := ⟨1, 0, 0, 1⟩

/-- np.diag ([x, y]). -/
def diag (x y : ℝ) : Mat2 := ⟨x, 0, 0, y⟩

/-- The closed-form inverse of a 2 by 2 matrix (total; meaningful when det is
nonzero). -/
def inv22 (M : Mat2) : Mat2 :=
  ⟨M.d / M.det, -M.b / M.det, -M.c / M.det, M.a / M.det⟩

/-- np.dot (M, v) for a 2 by 2 matrix and a column 2-vector. -/
def mulVec (M : Mat2) (v : ℝ × ℝ) : ℝ × ℝ :=
  (M.a * v.1 + M.b * v.2, M.c * v.1 + M.d * v.2)

end Mat2

/-- np.linalg.inv: raises LinAlgError when the matrix is exactly singular. -/
def pyinv (M : Mat2) : Option Mat2 :=
  if M.det = 0 then none else some (M.inv22)

/-- np.dot (v, M) for a row 2-vector and a 2 by 2 matrix. -/
def rowMul (v : ℝ × ℝ) (M : Mat2) : ℝ × ℝ :=
  (v.1 * M.a + v.2 * M.c, v.1 * M.b + v.2 * M.d)

/-- np.dot of two 2-vectors. -/
def dot2 (u v : ℝ × ℝ) : ℝ := u.1 * v.1 + u.2 * v.2

/-- Python list element assignment xs[i] = x: raises IndexError when the
index is out of range. -/
def pyset {α : Type} (xs : List α) (i : ℕ) (x : α) : Option (List α) :=
  if i < xs.length then some (xs.set i x) else none

/-- One FastSLAM particle: a pose hypothesis and its landmark map
(parallel lists of 2-vector means and 2 by 2 covariances). -/
structure Particle where
  pose : ℝ × ℝ × ℝ
  landmark_positions : List (ℝ × ℝ)
  landmark_covariances : List Mat2

instance : Inhabited Particle := ⟨⟨(0, 0, 0), [], []⟩⟩

namespace Particle

/-- Utility: return current number of landmarks in this particle. -/
def number_of_landmarks (p : Particle) : ℕ := p.landmark_positions.length

/-- State transition g of the differential-drive motion model
(python_slam.py lines 27-43). -/
def g (state : ℝ × ℝ × ℝ) (control : ℝ × ℝ) (w : ℝ) : ℝ × ℝ × ℝ :=
  let x := state.1
  let y := state.2.1
  let theta := state.2.2
  let l := control.1
  let r := control.2
  if r ≠ l then
    let alpha := (r - l) / w
    let rad := l / alpha
    (x + (rad + w / 2) * (Real.sin (theta + alpha) - Real.sin theta),
     y + (rad + w / 2) * (-Real.cos (theta + alpha) + Real.cos theta),
     pymod (theta + alpha + Real.pi) (2 * Real.pi) - Real.pi)
  else
    (x + l * Real.cos theta, y + l * Real.sin theta, theta)

/-- Given left, right control and robot width, move the robot. -/
def move (p : Particle) (left right w : ℝ) : Particle :=
  { p with pose := g p.pose (left, right) w }

/-- Measurement function h: from a pose and a landmark to (range, bearing)
(python_slam.py lines 49-57). -/
def h (state : ℝ × ℝ × ℝ) (landmark : ℝ × ℝ) (scanner_displacement : ℝ) : ℝ × ℝ :=
  let dx := landmark.1 - (state.1 + scanner_displacement * Real.cos state.2.2)
  let dy := landmark.2 - (state.2.1 + scanner_displacement * Real.sin state.2.2)
  (Real.sqrt (dx * dx + dy * dy),
   pymod (pyatan2 dy dx - state.2.2 + Real.pi) (2 * Real.pi) - Real.pi)

/-- Derivative of h with respect to the landmark coordinates
(python_slam.py lines 59-76). -/
def dh_dlandmark (state : ℝ × ℝ × ℝ) (landmark : ℝ × ℝ)
    (scanner_displacement : ℝ) : Mat2 :=
  let theta := state.2.2
  let cost := Real.cos theta
  let sint := Real.sin theta
  let dx := landmark.1 - (state.1 + scanner_displacement * cost)
  let dy := landmark.2 - (state.2.1 + scanner_displacement * sint)
  let q := dx * dx + dy * dy
  let sqrtq := Real.sqrt q
  ⟨dx / sqrtq, dy / sqrtq, -dy / q, dx / q⟩

/-- Expected measurement for landmark number n; indexing into the landmark
list raises on an out-of-range index. -/
def h_expected_measurement_for_landmark (p : Particle) (n : ℕ)
    (scanner_displacement : ℝ) : Option (ℝ × ℝ) := do
  let lm ← p.landmark_positions[n]?
  some (h p.pose lm scanner_displacement)

/-- Jacobian H and innovation covariance Ql for landmark number n
(python_slam.py lines 84-94). -/
def H_Ql_jacobian_and_measurement_covariance_for_landmark (p : Particle)
    (n : ℕ) (Qt : Mat2) (scanner_displacement : ℝ) : Option (Mat2 × Mat2) := do
  let lm ← p.landmark_positions[n]?
  let H := dh_dlandmark p.pose lm scanner_displacement
  let cov ← p.landmark_covariances[n]?
  some (H, (H.mul (cov.mul H.transpose)).add Qt)

/-- The innovation delta_z = measurement - expected measurement, exactly the
expression used at python_slam.py lines 106 and 171; no further wrapping of
the bearing component is applied. -/
def delta_z (p : Particle) (measurement : ℝ × ℝ) (n : ℕ)
    (scanner_displacement : ℝ) : Option (ℝ × ℝ) := do
  let e ← p.h_expected_measurement_for_landmark n scanner_displacement
  some (measurement.1 - e.1, measurement.2 - e.2)

/-- Correspondence likelihood of a measurement and landmark number n
(python_slam.py lines 96-116): the Gaussian density
1 / (2 pi sqrt (det Ql)) * exp (dot (dot (-0.5 delta_z, inv Ql), delta_z)).
Failure cases, mirroring the Python evaluation order: math.sqrt raises when
det Ql is negative, the division raises when 2 pi sqrt (det Ql) is zero,
and np.linalg.inv raises when Ql is exactly singular. -/
def wl_likelihood_of_correspondence (p : Particle) (measurement : ℝ × ℝ)
    (n : ℕ) (Qt : Mat2) (scanner_displacement : ℝ) : Option ℝ := do
  let dz ← p.delta_z measurement n scanner_displacement
  let hql ← p.H_Ql_jacobian_and_measurement_covariance_for_landmark n Qt
    scanner_displacement
  let d := (hql.2).det
  if d < 0 then none
  else if 2 * Real.pi * Real.sqrt d = 0 then none
  else do
    let qli ← pyinv hql.2
    some (1 / (2 * Real.pi * Real.sqrt d) *
      Real.exp (dot2 (rowMul (-(1 / 2) * dz.1, -(1 / 2) * dz.2) qli) dz))

/-- Helper recursion for compute_correspondence_likelihoods: likelihoods for
landmark numbers i, i+1, ..., i+k-1, failing as soon as one evaluation
raises (as the Python loop would). -/
def ccFrom (p : Particle) (measurement : ℝ × ℝ) (Qt : Mat2)
    (scanner_displacement : ℝ) : ℕ → ℕ → Option (List ℝ)
  | _, 0 => some []
  | i, k + 1 => do
    let v ← p.wl_likelihood_of_correspondence measurement i Qt
      scanner_displacement
    let rest ← ccFrom p measurement Qt scanner_displacement (i + 1) k
    some (v :: rest)

/-- All correspondence likelihoods from landmark number 0 to
number_of_landmarks - 1 (python_slam.py lines 118-130). -/
def compute_correspondence_likelihoods (p : Particle) (measurement : ℝ × ℝ)
    (number_of_landmarks : ℕ) (Qt : Mat2) (scanner_displacement : ℝ) :
    Option (List ℝ) :=
  ccFrom p measurement Qt scanner_displacement 0 number_of_landmarks

end Particle

/-- Modelled from the spec: LegoLogfile.scanner_to_world from lego_robot.py
is not part of src/.  Following section 4.3 of the spec, it transforms a
point given in the scanner frame into world coordinates using the scanner
pose: rotate the point by the scanner heading and translate by the scanner
position. -/
def scanner_to_world (pose : ℝ × ℝ × ℝ) (point : ℝ × ℝ) : ℝ × ℝ :=
  let c := Real.cos pose.2.2
  let s := Real.sin pose.2.2
  (point.1 * c - point.2 * s + pose.1, point.1 * s + point.2 * c + pose.2.1)

namespace Particle

/-- Initialize a new landmark from an (x, y) measurement in the scanner
frame (python_slam.py lines 132-156).  np.linalg.inv raises when the
Jacobian H is exactly singular. -/
def initialize_new_landmark (p : Particle)
    (measurement_in_scanner_system : ℝ × ℝ) (Qt : Mat2)
    (scanner_displacement : ℝ) : Option Particle := do
  let scanner_pose : ℝ × ℝ × ℝ :=
    (p.pose.1 + Real.cos p.pose.2.2 * scanner_displacement,
     p.pose.2.1 + Real.sin p.pose.2.2 * scanner_displacement,
     p.pose.2.2)
  let landmark_position := scanner_to_world scanner_pose
    measurement_in_scanner_system
  let H := dh_dlandmark p.pose landmark_position scanner_displacement
  let H_inv ← pyinv H
  let landmark_covariance := (H_inv.mul Qt).mul H_inv.transpose
  some { p with
    landmark_positions := p.landmark_positions ++ [landmark_position],
    landmark_covariances := p.landmark_covariances ++ [landmark_covariance] }

/-- EKF update of the landmark with number n (python_slam.py lines
158-174): Kalman gain K = cov Ht inv Ql, mean += K delta_z,
cov = (I - K H) cov. -/
def update_landmark (p : Particle) (n : ℕ) (measurement : ℝ × ℝ)
    (Qt : Mat2) (scanner_displacement : ℝ) : Option Particle := do
  let hql ← p.H_Ql_jacobian_and_measurement_covariance_for_landmark n Qt
    scanner_displacement
  let H := hql.1
  let cov ← p.landmark_covariances[n]?
  let qli ← pyinv hql.2
  let K := (cov.mul H.transpose).mul qli
  let lm ← p.landmark_positions[n]?
  let dz ← p.delta_z measurement n scanner_displacement
  let newpos := (lm.1 + (K.mulVec dz).1, lm.2 + (K.mulVec dz).2)
  let newcov := (Mat2.id2.sub (K.mul H)).mul cov
  let ps ← pyset p.landmark_positions n newpos
  let cs ← pyset p.landmark_covariances n newcov
  some { p with landmark_positions := ps, landmark_covariances := cs }

end Particle

/-- Python max of a list of floats; max ([]) raises, the empty case here is
junk (the call sites guard against it). -/
def pymax : List ℝ → ℝ
  | [] => 0
  | x :: xs => xs.foldl max x

/-- The (max, argmax) loop of update_particle (python_slam.py lines
202-207): w = 0, max_index = 0, then for each index, likelihood:
if likelihood > w then update (w, max_index). -/
def maxloopAux : List ℝ → ℕ → ℝ → ℕ → ℝ × ℕ
  | [], _, w, mi => (w, mi)
  | x :: xs, i, w, mi =>
    if x > w then maxloopAux xs (i + 1) x i else maxloopAux xs (i + 1) w mi

/-- The (max, argmax) of a likelihood list as computed by update_particle. -/
def maxloop (l : List ℝ) : ℝ × ℕ := maxloopAux l 0 0 0

namespace Particle

/-- Data association and per-observation update (python_slam.py lines
176-211): compute all correspondence likelihoods against landmark numbers
0 .. number_of_landmarks - 1; if there are none or the maximum is below
minimum_correspondence_likelihood, initialize a new landmark and return the
threshold as the weight contribution, otherwise EKF-update the landmark
attaining the maximum and return that maximum. -/
def update_particle (p : Particle) (measurement : ℝ × ℝ)
    (measurement_in_scanner_system : ℝ × ℝ) (number_of_landmarks : ℕ)
    (minimum_correspondence_likelihood : ℝ) (Qt : Mat2)
    (scanner_displacement : ℝ) : Option (Particle × ℝ) := do
  let likelihoods ← p.compute_correspondence_likelihoods measurement
    number_of_landmarks Qt scanner_displacement
  if likelihoods = [] ∨ pymax likelihoods < minimum_correspondence_likelihood
  then do
    let p2 ← p.initialize_new_landmark measurement_in_scanner_system Qt
      scanner_displacement
    some (p2, minimum_correspondence_likelihood)
  else do
    let wmi := maxloop likelihoods
    let p2 ← p.update_landmark wmi.2 measurement Qt scanner_displacement
    some (p2, wmi.1)

end Particle

/-- The FastSLAM filter state: the particle set and the filter constants
(python_slam.py lines 213-230). -/
structure FastSLAM where
  particles : List Particle
  robot_width : ℝ
  scanner_displacement : ℝ
  control_motion_factor : ℝ
  control_turn_factor : ℝ
  measurement_distance_stddev : ℝ
  measurement_angle_stddev : ℝ
  minimum_correspondence_likelihood : ℝ

namespace FastSLAM

/-- The prediction step (python_slam.py lines 232-243), with the sampled
noisy controls supplied explicitly: particle i moves by noisy_controls[i]. -/
def predict_sampled (fs : FastSLAM) (noisy_controls : List (ℝ × ℝ)) :
    FastSLAM :=
  { fs with particles :=
      ((fs.particles.zip noisy_controls).map
        (fun pc => pc.1.move pc.2.1 pc.2.2 fs.robot_width)) }

end FastSLAM

/-- The inner measurement loop of update_and_compute_weights: fold
update_particle over the observation list, multiplying the weight
accumulator by each per-observation contribution. -/
def processMeasurements (number_of_landmarks : ℕ)
    (minimum_correspondence_likelihood : ℝ) (Qt : Mat2)
    (scanner_displacement : ℝ) :
    List ((ℝ × ℝ) × (ℝ × ℝ)) → Particle → ℝ → Option (Particle × ℝ)
  | [], p, weight => some (p, weight)
  | cyl :: cyls, p, weight => do
    let pw ← p.update_particle cyl.1 cyl.2 number_of_landmarks
      minimum_correspondence_likelihood Qt scanner_displacement
    processMeasurements number_of_landmarks minimum_correspondence_likelihood
      Qt scanner_displacement cyls pw.1 (weight * pw.2)

/-- The outer particle loop of update_and_compute_weights: for each
particle, capture its landmark count once, process all observations with
weight accumulator starting at 1.0, and collect the updated particles and
their weights. -/
def uacwLoop (minimum_correspondence_likelihood : ℝ) (Qt : Mat2)
    (scanner_displacement : ℝ) (cylinders : List ((ℝ × ℝ) × (ℝ × ℝ))) :
    List Particle → Option (List Particle × List ℝ)
  | [] => some ([], [])
  | p :: ps => do
    let pw ← processMeasurements p.number_of_landmarks
      minimum_correspondence_likelihood Qt scanner_displacement cylinders p 1
    let rest ← uacwLoop minimum_correspondence_likelihood Qt
      scanner_displacement cylinders ps
    some (pw.1 :: rest.1, pw.2 :: rest.2)

namespace FastSLAM

/-- update_and_compute_weights (python_slam.py lines 245-267).  Note that
the source reads the module-global scanner_displacement, not
self.scanner_displacement; it is passed here as the explicit argument sd.
Returns the updated particles together with the weight list. -/
def update_and_compute_weights (fs : FastSLAM)
    (cylinders : List ((ℝ × ℝ) × (ℝ × ℝ))) (sd : ℝ) :
    Option (List Particle × List ℝ) :=
  uacwLoop fs.minimum_correspondence_likelihood
    (Mat2.diag (fs.measurement_distance_stddev ^ 2)
      (fs.measurement_angle_stddev ^ 2))
    sd cylinders fs.particles

end FastSLAM

/-- The inner while loop of resample (python_slam.py lines 278-280):
while offset > weights[index]: offset -= weights[index];
index = (index + 1) % len(weights).  Modelled with explicit fuel; none
models non-termination within the given fuel. -/
def spin (weights : List ℝ) : ℕ → ℝ → ℕ → Option (ℝ × ℕ)
  | 0, _, _ => none
  | fuel + 1, offset, index =>
    if offset > weights.getD index 0 then
      spin weights fuel (offset - weights.getD index 0)
        ((index + 1) % weights.length)
    else some (offset, index)

/-- The outer loop of resample: one sampled step size per output slot;
after the while loop the particle at the current index is copied into the
output (deep copy is the identity on immutable values). -/
def resampleLoop (particles : List Particle) (weights : List ℝ) (fuel : ℕ) :
    List ℝ → ℝ → ℕ → Option (List Particle)
  | [], _, _ => some []
  | step :: steps, offset, index => do
    let oi ← spin weights fuel (offset + step) index
    let rest ← resampleLoop particles weights fuel steps oi.1 oi.2
    some (particles.getD oi.2 default :: rest)

namespace FastSLAM

/-- resample (python_slam.py lines 269-282) with the randomness supplied
explicitly: start_index is the sampled initial index (random.randint with
both bounds inclusive) and steps are the sampled per-slot offsets, each
drawn by random.uniform (0, 2 * max (weights)). -/
def resample (fs : FastSLAM) (weights : List ℝ) (start_index : ℕ)
    (steps : List ℝ) (fuel : ℕ) : Option (List Particle) :=
  resampleLoop fs.particles weights fuel steps 0 start_index

/-- The correction step (python_slam.py lines 284-290): update all
particles and compute weights, then replace the particle set with the
resampled one. -/
def correct_sampled (fs : FastSLAM) (cylinders : List ((ℝ × ℝ) × (ℝ × ℝ)))
    (sd : ℝ) (start_index : ℕ) (steps : List ℝ) (fuel : ℕ) :
    Option FastSLAM := do
  let pw ← fs.update_and_compute_weights cylinders sd
  let newps ← resampleLoop pw.1 pw.2 fuel steps 0 start_index
  some { fs with particles := newps }

end FastSLAM

/-- Spec-side abstraction for claim C2: the list of per-observation weight
contributions, collected instead of multiplied.  The returned particle and
the success set coincide with processMeasurements; the product of this list
is the particle weight. -/
def observation_contributions (number_of_landmarks : ℕ)
    (minimum_correspondence_likelihood : ℝ) (Qt : Mat2)
    (scanner_displacement : ℝ) :
    List ((ℝ × ℝ) × (ℝ × ℝ)) → Particle → Option (Particle × List ℝ)
  | [], p => some (p, [])
  | cyl :: cyls, p => do
    let pw ← p.update_particle cyl.1 cyl.2 number_of_landmarks
      minimum_correspondence_likelihood Qt scanner_displacement
    let rest ← observation_contributions number_of_landmarks
      minimum_correspondence_likelihood Qt scanner_displacement cyls pw.1
    some (rest.1, pw.2 :: rest.2)

/-- Spec-side abstraction for claim C7: the correspondence likelihood of
python_slam.py line 116 as a function of the innovation covariance Ql and
the innovation dz (the code value wl_likelihood_of_correspondence equals
this function at its computed Ql and delta_z; see the linking lemma). -/
def likelihood_form (Ql : Mat2) (dz : ℝ × ℝ) : ℝ :=
  1 / (2 * Real.pi * Real.sqrt Ql.det) *
    Real.exp (dot2 (rowMul (-(1 / 2) * dz.1, -(1 / 2) * dz.2) Ql.inv22) dz)

/-- Unit measurement covariance, i.e. Qt for stddevs (1, 1). -/
def Qt1 : Mat2 := ⟨1, 0, 0, 1⟩

/-- A particle with no landmarks at the origin pose. -/
def pGood : Particle := ⟨(0, 0, 0), [], []⟩

/-- The particle pGood after creating the landmark (1, 0) with covariance
Qt1 from the observation ((1, 0), (1, 0)) with scanner displacement 0. -/
def pG1 : Particle := ⟨(0, 0, 0), [(1, 0)], [Qt1]⟩

/-- A landmark covariance that makes the innovation covariance Ql exactly
singular when Qt = Qt1 and H is the identity. -/
def covBad : Mat2 := ⟨-1, 0, 0, -1⟩

/-- A particle whose single landmark produces an exactly singular Ql. -/
def pBad : Particle := ⟨(0, 0, 0), [(1, 0)], [covBad]⟩

/-- A particle whose single landmark lies at bearing -3 radians from the
origin pose, used to exhibit an unwrapped innovation bearing. -/
def pC3 : Particle := ⟨(0, 0, 0), [(Real.cos 3, -Real.sin 3)], [Qt1]⟩

/-- A single observation: measurement (1, 0), scanner-frame point (1, 0). -/
def cyl1 : List ((ℝ × ℝ) × (ℝ × ℝ)) := [((1, 0), (1, 0))]

/-- A filter with the single particle pGood, unit measurement stddevs and
threshold 1/2. -/
def fsGood : FastSLAM := ⟨[pGood], 1, 0, 0, 0, 1, 1, 1 / 2⟩

/-- A filter whose first particle raises on a singular innovation
covariance and whose second particle would succeed. -/
def fsBad : FastSLAM := ⟨[pBad, pGood], 1, 0, 0, 0, 1, 1, 1 / 2⟩

/-- A symmetric positive-definite but non-diagonal innovation covariance,
used to refute per-component monotonicity of the likelihood. -/
def QlC7 : Mat2 := ⟨2, -1, -1, 2⟩

/-! ### Basic lemmas about the Python primitives -/

lemma pymod_nonneg (a m : ℝ) (hm : 0 < m) : 0 ≤ pymod a m := by
  unfold pymod
  have h1 : (⌊a / m⌋ : ℝ) ≤ a / m := Int.floor_le _
  have h2 : m * (⌊a / m⌋ : ℝ) ≤ m * (a / m) :=
    mul_le_mul_of_nonneg_left h1 hm.le
  have h3 : m * (a / m) = a := by field_simp
  linarith

lemma pymod_lt (a m : ℝ) (hm : 0 < m) : pymod a m < m := by
  unfold pymod
  have h1 : a / m < (⌊a / m⌋ : ℝ) + 1 := Int.lt_floor_add_one _
  have h2 : m * (a / m) < m * ((⌊a / m⌋ : ℝ) + 1) :=
    (mul_lt_mul_left hm).mpr h1
  have h3 : m * (a / m) = a := by field_simp
  nlinarith

lemma pymod_eq_self (a m : ℝ) (hm : 0 < m) (h0 : 0 ≤ a) (h1 : a < m) :
    pymod a m = a := by
  unfold pymod
  have hfloor : ⌊a / m⌋ = 0 := by
    rw [Int.floor_eq_zero_iff]
    constructor
    · exact div_nonneg h0 hm.le
    · rw [div_lt_one hm]; exact h1
  rw [hfloor]
  simp

/-- A nonempty list of positive reals has a positive lower bound. -/
lemma exists_pos_lb : ∀ (l : List ℝ), (∀ x ∈ l, 0 < x) →
    ∃ b, 0 < b ∧ ∀ x ∈ l, b ≤ x
  | [], _ => ⟨1, one_pos, by simp⟩
  | x :: xs, h => by
    obtain ⟨b, hb, hle⟩ := exists_pos_lb xs (fun y hy => h y (by simp [hy]))
    refine ⟨min b x, lt_min hb (h x (by simp)), ?_⟩
    intro y hy
    rcases List.mem_cons.mp hy with rfl | hy
    · exact min_le_right _ _
    · exact le_trans (min_le_left _ _) (hle y hy)

/-! ### Lemmas about pymax and the (max, argmax) loop -/

lemma foldl_max_spec : ∀ (xs : List ℝ) (a : ℝ),
    a ≤ xs.foldl max a ∧ (∀ x ∈ xs, x ≤ xs.foldl max a) ∧
    (xs.foldl max a = a ∨ xs.foldl max a ∈ xs)
  | [], a => by simp
  | x :: xs, a => by
    have ih := foldl_max_spec xs (max a x)
    simp only [List.foldl_cons]
    refine ⟨le_trans (le_max_left a x) ih.1, ?_, ?_⟩
    · intro y hy
      rcases List.mem_cons.mp hy with hxy | hy
      · rw [hxy]; exact le_trans (le_max_right a x) ih.1
      · exact ih.2.1 y hy
    · rcases ih.2.2 with h | h
      · rcases max_choice a x with hc | hc
        · left; rw [h, hc]
        · right; rw [h, hc]; exact List.mem_cons_self _ _
      · right; exact List.mem_cons_of_mem _ h

lemma le_pymax (l : List ℝ) : ∀ x ∈ l, x ≤ pymax l := by
  cases l with
  | nil => simp
  | cons x xs =>
    intro y hy
    rcases List.mem_cons.mp hy with rfl | hy
    · exact (foldl_max_spec xs y).1
    · exact (foldl_max_spec xs x).2.1 y hy

lemma pymax_mem (l : List ℝ) (h : l ≠ []) : pymax l ∈ l := by
  cases l with
  | nil => exact absurd rfl h
  | cons x xs =>
    rcases (foldl_max_spec xs x).2.2 with heq | hmem
    · rw [pymax, heq]; exact List.mem_cons_self _ _
    · exact List.mem_cons_of_mem _ hmem

lemma maxloopAux_spec : ∀ (xs : List ℝ) (i : ℕ) (w : ℝ) (mi : ℕ),
    w ≤ (maxloopAux xs i w mi).1 ∧
    (∀ x ∈ xs, x ≤ (maxloopAux xs i w mi).1) ∧
    (((maxloopAux xs i w mi).1 = w ∧ (maxloopAux xs i w mi).2 = mi) ∨
      (∃ j, j < xs.length ∧ (maxloopAux xs i w mi).2 = i + j ∧
        xs[j]? = some (maxloopAux xs i w mi).1 ∧
        w < (maxloopAux xs i w mi).1 ∧
        ∀ k, k < j → ∀ v, xs[k]? = some v → v < (maxloopAux xs i w mi).1))
  | [], i, w, mi => by simp [maxloopAux]
  | x :: xs, i, w, mi => by
    by_cases hx : x > w
    · have ih := maxloopAux_spec xs (i + 1) x i
      rw [maxloopAux, if_pos hx]
      refine ⟨le_trans hx.le ih.1, ?_, ?_⟩
      · intro y hy
        rcases List.mem_cons.mp hy with rfl | hy
        · exact ih.1
        · exact ih.2.1 y hy
      · rcases ih.2.2 with ⟨h1, h2⟩ | ⟨j, hj, hmi, hget, hlt, hbef⟩
        · right
          refine ⟨0, by simp, by omega, ?_, by rw [h1]; exact hx, ?_⟩
          · simp [h1]
          · intro k hk; omega
        · right
          refine ⟨j + 1, by simpa using hj, by omega, by simpa using hget,
            lt_trans hx hlt, ?_⟩
          intro k hk v hv
          cases k with
          | zero =>
            have hvx : x = v := by simpa using hv
            rw [← hvx]; exact hlt
          | succ k =>
            exact hbef k (by omega) v (by simpa using hv)
    · have ih := maxloopAux_spec xs (i + 1) w mi
      rw [maxloopAux, if_neg hx]
      push_neg at hx
      refine ⟨ih.1, ?_, ?_⟩
      · intro y hy
        rcases List.mem_cons.mp hy with rfl | hy
        · exact le_trans hx ih.1
        · exact ih.2.1 y hy
      · rcases ih.2.2 with ⟨h1, h2⟩ | ⟨j, hj, hmi, hget, hlt, hbef⟩
        · left; exact ⟨h1, h2⟩
        · right
          refine ⟨j + 1, by simpa using hj, by omega, by simpa using hget,
            hlt, ?_⟩
          intro k hk v hv
          cases k with
          | zero =>
            have hvx : x = v := by simpa using hv
            rw [← hvx]; exact lt_of_le_of_lt hx hlt
          | succ k =>
            exact hbef k (by omega) v (by simpa using hv)

/-- For a nonempty list of positive values, the source loop computes
exactly the maximum together with the first index attaining it. -/
lemma maxloop_first_argmax (l : List ℝ) (hne : l ≠ [])
    (hpos : ∀ x ∈ l, 0 < x) :
    (maxloop l).1 = pymax l ∧ (maxloop l).2 < l.length ∧
    l[(maxloop l).2]? = some (pymax l) ∧
    ∀ k, k < (maxloop l).2 → ∀ v, l[k]? = some v → v < pymax l := by
  unfold maxloop
  have hs := maxloopAux_spec l 0 0 0
  rcases hs.2.2 with ⟨h1, _⟩ | ⟨j, hj, hmi, hget, _, hbef⟩
  · exfalso
    obtain ⟨x, hx⟩ := List.exists_mem_of_ne_nil l hne
    have hb := hs.2.1 x hx
    have hp := hpos x hx
    rw [h1] at hb
    linarith
  · have hmem : (maxloopAux l 0 0 0).1 ∈ l := List.getElem?_mem hget
    have heq : (maxloopAux l 0 0 0).1 = pymax l :=
      le_antisymm (le_pymax l _ hmem) (hs.2.1 _ (pymax_mem l hne))
    refine ⟨heq, by omega, ?_, ?_⟩
    · rw [hmi, Nat.zero_add, ← heq]; exact hget
    · intro k hk v hv
      rw [hmi, Nat.zero_add] at hk
      rw [← heq]
      exact hbef k hk v hv

/-! ### Lemmas about the correspondence likelihood -/

/-- Inversion of a successful likelihood evaluation: the innovation and the
pair (H, Ql) were computed, det Ql is strictly positive, and the value is
the Gaussian density expression of python_slam.py line 116. -/
lemma wl_some_inv (p : Particle) (m : ℝ × ℝ) (n : ℕ) (Qt : Mat2) (sd : ℝ)
    (v : ℝ) (h : p.wl_likelihood_of_correspondence m n Qt sd = some v) :
    ∃ dz hql, p.delta_z m n sd = some dz ∧
      p.H_Ql_jacobian_and_measurement_covariance_for_landmark n Qt sd =
        some hql ∧ 0 < (hql.2).det ∧
      v = 1 / (2 * Real.pi * Real.sqrt (hql.2).det) *
        Real.exp (dot2 (rowMul (-(1 / 2) * dz.1, -(1 / 2) * dz.2)
          (hql.2).inv22) dz) := by
  unfold Particle.wl_likelihood_of_correspondence at h
  simp only [Option.bind_eq_bind, Option.bind_eq_some] at h
  obtain ⟨dz, hdz, hql, hhql, hrest⟩ := h
  refine ⟨dz, hql, hdz, hhql, ?_⟩
  split at hrest
  · exact absurd hrest (by simp)
  · split at hrest
    · exact absurd hrest (by simp)
    · rename_i hd hs
      have hdet : 0 < (hql.2).det := by
        rcases lt_or_eq_of_le (not_lt.mp hd) with h0 | h0
        · exact h0
        · exfalso
          apply hs
          rw [← h0, Real.sqrt_zero, mul_zero]
      refine ⟨hdet, ?_⟩
      rw [pyinv, if_neg hdet.ne'] at hrest
      simp only [Option.some_bind, Option.some.injEq] at hrest
      exact hrest.symm

/-- A successfully computed correspondence likelihood is strictly
positive. -/
lemma wl_pos (p : Particle) (m : ℝ × ℝ) (n : ℕ) (Qt : Mat2) (sd : ℝ)
    (v : ℝ) (h : p.wl_likelihood_of_correspondence m n Qt sd = some v) :
    0 < v := by
  obtain ⟨dz, hql, _, _, hdet, hv⟩ := wl_some_inv p m n Qt sd v h
  have h1 : 0 < Real.sqrt (hql.2).det := Real.sqrt_pos.mpr hdet
  have h2 : 0 < 2 * Real.pi * Real.sqrt (hql.2).det :=
    mul_pos (mul_pos two_pos Real.pi_pos) h1
  rw [hv]
  exact mul_pos (by positivity) (Real.exp_pos _)

/-- The correspondence likelihood reads the particle only through its pose
and the landmark mean and covariance with number n. -/
lemma wl_congr (p q : Particle) (m : ℝ × ℝ) (n : ℕ) (Qt : Mat2) (sd : ℝ)
    (hpose : p.pose = q.pose)
    (hpos : p.landmark_positions[n]? = q.landmark_positions[n]?)
    (hcov : p.landmark_covariances[n]? = q.landmark_covariances[n]?) :
    p.wl_likelihood_of_correspondence m n Qt sd =
      q.wl_likelihood_of_correspondence m n Qt sd := by
  unfold Particle.wl_likelihood_of_correspondence Particle.delta_z
    Particle.h_expected_measurement_for_landmark
    Particle.H_Ql_jacobian_and_measurement_covariance_for_landmark
  rw [hpose, hpos, hcov]

/-- Linking lemma: when det Ql is strictly positive, the code likelihood
succeeds and equals the pure Gaussian density likelihood_form evaluated at
the computed Ql and innovation. -/
lemma wl_eq_likelihood_form (p : Particle) (m : ℝ × ℝ) (n : ℕ) (Qt : Mat2)
    (sd : ℝ) (dz : ℝ × ℝ) (hql : Mat2 × Mat2)
    (hdz : p.delta_z m n sd = some dz)
    (hhql : p.H_Ql_jacobian_and_measurement_covariance_for_landmark n Qt sd =
      some hql) (hdet : 0 < (hql.2).det) :
    p.wl_likelihood_of_correspondence m n Qt sd =
      some (likelihood_form hql.2 dz) := by
  have h1 : 0 < Real.sqrt (hql.2).det := Real.sqrt_pos.mpr hdet
  have h2 : 2 * Real.pi * Real.sqrt (hql.2).det ≠ 0 :=
    (mul_pos (mul_pos two_pos Real.pi_pos) h1).ne'
  unfold Particle.wl_likelihood_of_correspondence likelihood_form
  rw [hdz, hhql]
  simp only [Option.bind_eq_bind, Option.some_bind]
  rw [if_neg (not_lt.mpr hdet.le), if_neg h2, pyinv, if_neg hdet.ne']
  simp only [Option.some_bind]

/-! ### Lemmas about compute_correspondence_likelihoods -/

lemma ccFrom_some_length : ∀ (k i : ℕ) (p : Particle) (m : ℝ × ℝ)
    (Qt : Mat2) (sd : ℝ) (ls : List ℝ),
    Particle.ccFrom p m Qt sd i k = some ls → ls.length = k
  | 0, i, p, m, Qt, sd, ls => by
    intro h
    unfold Particle.ccFrom at h
    simp only [Option.some.injEq] at h
    rw [← h]
    rfl
  | k + 1, i, p, m, Qt, sd, ls => by
    intro h
    unfold Particle.ccFrom at h
    simp only [Option.bind_eq_bind, Option.bind_eq_some,
      Option.some.injEq] at h
    obtain ⟨v, _, rest, hrest, heq⟩ := h
    have ih := ccFrom_some_length k (i + 1) p m Qt sd rest hrest
    rw [← heq]
    simp [ih]

lemma ccFrom_some_pos : ∀ (k i : ℕ) (p : Particle) (m : ℝ × ℝ)
    (Qt : Mat2) (sd : ℝ) (ls : List ℝ),
    Particle.ccFrom p m Qt sd i k = some ls → ∀ v ∈ ls, 0 < v
  | 0, i, p, m, Qt, sd, ls => by
    intro h
    unfold Particle.ccFrom at h
    simp only [Option.some.injEq] at h
    rw [← h]
    simp
  | k + 1, i, p, m, Qt, sd, ls => by
    intro h
    unfold Particle.ccFrom at h
    simp only [Option.bind_eq_bind, Option.bind_eq_some,
      Option.some.injEq] at h
    obtain ⟨v, hv, rest, hrest, heq⟩ := h
    have ih := ccFrom_some_pos k (i + 1) p m Qt sd rest hrest
    intro y hy
    rw [← heq] at hy
    rcases List.mem_cons.mp hy with hyv | hy
    · rw [hyv]; exact wl_pos p m i Qt sd v hv
    · exact ih y hy

lemma ccFrom_congr : ∀ (k i : ℕ) (p q : Particle) (m : ℝ × ℝ) (Qt : Mat2)
    (sd : ℝ), p.pose = q.pose →
    (∀ j, j < i + k →
      p.landmark_positions[j]? = q.landmark_positions[j]? ∧
      p.landmark_covariances[j]? = q.landmark_covariances[j]?) →
    Particle.ccFrom p m Qt sd i k = Particle.ccFrom q m Qt sd i k
  | 0, i, p, q, m, Qt, sd => by intro _ _; rfl
  | k + 1, i, p, q, m, Qt, sd => by
    intro hpose hj
    unfold Particle.ccFrom
    rw [wl_congr p q m i Qt sd hpose (hj i (by omega)).1 (hj i (by omega)).2,
      ccFrom_congr k (i + 1) p q m Qt sd hpose
        (fun j hjk => hj j (by omega))]

/-- The correspondence-likelihood list depends only on the first N
landmarks: i appending further landmarks (or differing beyond index N)
cannot change it. -/
lemma cc_take_congr (p q : Particle) (m : ℝ × ℝ) (N : ℕ) (Qt : Mat2)
    (sd : ℝ) (hpose : p.pose = q.pose)
    (hpos : p.landmark_positions.take N = q.landmark_positions.take N)
    (hcov : p.landmark_covariances.take N = q.landmark_covariances.take N) :
    p.compute_correspondence_likelihoods m N Qt sd =
      q.compute_correspondence_likelihoods m N Qt sd := by
  unfold Particle.compute_correspondence_likelihoods
  refine ccFrom_congr N 0 p q m Qt sd hpose ?_
  intro j hj
  rw [Nat.zero_add] at hj
  constructor
  · calc p.landmark_positions[j]?
        = (p.landmark_positions.take N)[j]? :=
          (List.getElem?_take_of_lt hj).symm
      _ = (q.landmark_positions.take N)[j]? := by rw [hpos]
      _ = q.landmark_positions[j]? := List.getElem?_take_of_lt hj
  · calc p.landmark_covariances[j]?
        = (p.landmark_covariances.take N)[j]? :=
          (List.getElem?_take_of_lt hj).symm
      _ = (q.landmark_covariances.take N)[j]? := by rw [hcov]
      _ = q.landmark_covariances[j]? := List.getElem?_take_of_lt hj

lemma cc_some_length (p : Particle) (m : ℝ × ℝ) (N : ℕ) (Qt : Mat2)
    (sd : ℝ) (ls : List ℝ)
    (h : p.compute_correspondence_likelihoods m N Qt sd = some ls) :
    ls.length = N :=
  ccFrom_some_length N 0 p m Qt sd ls h

lemma cc_some_pos (p : Particle) (m : ℝ × ℝ) (N : ℕ) (Qt : Mat2)
    (sd : ℝ) (ls : List ℝ)
    (h : p.compute_correspondence_likelihoods m N Qt sd = some ls) :
    ∀ v ∈ ls, 0 < v :=
  ccFrom_some_pos N 0 p m Qt sd ls h

/-! ### Inversion lemmas for the landmark operations -/

/-- A successful landmark initialization preserves the pose and appends
exactly one landmark mean and one covariance. -/
lemma init_some_inv (p : Particle) (ms : ℝ × ℝ) (Qt : Mat2) (sd : ℝ)
    (p2 : Particle) (h : p.initialize_new_landmark ms Qt sd = some p2) :
    p2.pose = p.pose ∧
    ∃ lm cov, p2.landmark_positions = p.landmark_positions ++ [lm] ∧
      p2.landmark_covariances = p.landmark_covariances ++ [cov] := by
  unfold Particle.initialize_new_landmark at h
  simp only [Option.bind_eq_bind, Option.bind_eq_some,
    Option.some.injEq] at h
  obtain ⟨Hi, _, heq⟩ := h
  rw [← heq]
  exact ⟨rfl, _, _, rfl, rfl⟩

lemma pyset_some_inv {α : Type} (xs : List α) (i : ℕ) (x : α) (ys : List α)
    (h : pyset xs i x = some ys) : i < xs.length ∧ ys = xs.set i x := by
  unfold pyset at h
  split at h
  · simp only [Option.some.injEq] at h
    exact ⟨by assumption, h.symm⟩
  · exact absurd h (by simp)

/-- A successful EKF landmark update preserves the pose, acts on an
in-range index, preserves both list lengths, and leaves every other
landmark untouched. -/
lemma update_landmark_some_inv (p : Particle) (n : ℕ) (m : ℝ × ℝ)
    (Qt : Mat2) (sd : ℝ) (p2 : Particle)
    (h : p.update_landmark n m Qt sd = some p2) :
    p2.pose = p.pose ∧ n < p.landmark_positions.length ∧
    p2.landmark_positions.length = p.landmark_positions.length ∧
    p2.landmark_covariances.length = p.landmark_covariances.length ∧
    ∀ j, j ≠ n →
      p2.landmark_positions[j]? = p.landmark_positions[j]? ∧
      p2.landmark_covariances[j]? = p.landmark_covariances[j]? := by
  unfold Particle.update_landmark at h
  simp only [Option.bind_eq_bind, Option.bind_eq_some,
    Option.some.injEq] at h
  obtain ⟨hql, _, cov, _, qli, _, lm, _, dz, _, ps, hps, cs, hcs, heq⟩ := h
  obtain ⟨hlen1, hps'⟩ := pyset_some_inv _ _ _ _ hps
  obtain ⟨hlen2, hcs'⟩ := pyset_some_inv _ _ _ _ hcs
  rw [← heq]
  refine ⟨rfl, hlen1, ?_, ?_, ?_⟩
  · rw [hps']; simp
  · rw [hcs']; simp
  · intro j hj
    constructor
    · rw [hps']; exact List.getElem?_set_ne (fun hn => hj hn.symm)
    · rw [hcs']; exact List.getElem?_set_ne (fun hn => hj hn.symm)

/-- Inversion of a successful update_particle call: the likelihood list was
computed, and according to the branch taken either a new landmark was
initialized with weight contribution equal to the threshold, or the
landmark selected by the (max, argmax) loop was EKF-updated with weight
contribution equal to the loop maximum. -/
lemma update_particle_some_inv (p : Particle) (m ms : ℝ × ℝ) (N : ℕ)
    (minl : ℝ) (Qt : Mat2) (sd : ℝ) (p2 : Particle) (w : ℝ)
    (h : p.update_particle m ms N minl Qt sd = some (p2, w)) :
    ∃ ls, p.compute_correspondence_likelihoods m N Qt sd = some ls ∧
      ((ls = [] ∨ pymax ls < minl) →
        p.initialize_new_landmark ms Qt sd = some p2 ∧ w = minl) ∧
      (¬(ls = [] ∨ pymax ls < minl) →
        p.update_landmark (maxloop ls).2 m Qt sd = some p2 ∧
        w = (maxloop ls).1) := by
  unfold Particle.update_particle at h
  simp only [Option.bind_eq_bind, Option.bind_eq_some] at h
  obtain ⟨ls, hls, hrest⟩ := h
  refine ⟨ls, hls, ?_, ?_⟩
  · intro hcond
    rw [if_pos hcond] at hrest
    simp only [Option.bind_eq_some, Option.some.injEq, Prod.mk.injEq] at hrest
    obtain ⟨q, hq, h1, h2⟩ := hrest
    exact ⟨h1 ▸ hq, h2.symm⟩
  · intro hcond
    rw [if_neg hcond] at hrest
    simp only [Option.bind_eq_some, Option.some.injEq, Prod.mk.injEq] at hrest
    obtain ⟨q, hq, h1, h2⟩ := hrest
    exact ⟨h1 ▸ hq, h2.symm⟩

/-- A successful update_particle returns a weight contribution at least the
threshold. -/
lemma update_particle_weight_ge (p : Particle) (m ms : ℝ × ℝ) (N : ℕ)
    (minl : ℝ) (Qt : Mat2) (sd : ℝ) (p2 : Particle) (w : ℝ)
    (h : p.update_particle m ms N minl Qt sd = some (p2, w)) :
    minl ≤ w := by
  obtain ⟨ls, hls, hnew, hupd⟩ := update_particle_some_inv p m ms N minl Qt
    sd p2 w h
  by_cases hcond : ls = [] ∨ pymax ls < minl
  · rw [(hnew hcond).2]
  · have hne : ls ≠ [] := fun he => hcond (Or.inl he)
    have hpos := cc_some_pos p m N Qt sd ls hls
    have hmax := maxloop_first_argmax ls hne hpos
    rw [(hupd hcond).2, hmax.1]
    push_neg at hcond
    exact hcond.2

/-- A successful update_particle never shrinks the landmark list. -/
lemma update_particle_grows (p : Particle) (m ms : ℝ × ℝ) (N : ℕ)
    (minl : ℝ) (Qt : Mat2) (sd : ℝ) (p2 : Particle) (w : ℝ)
    (h : p.update_particle m ms N minl Qt sd = some (p2, w)) :
    p.landmark_positions.length ≤ p2.landmark_positions.length := by
  obtain ⟨ls, hls, hnew, hupd⟩ := update_particle_some_inv p m ms N minl Qt
    sd p2 w h
  by_cases hcond : ls = [] ∨ pymax ls < minl
  · obtain ⟨_, lm, cov, hp, _⟩ := init_some_inv p ms Qt sd p2 (hnew hcond).1
    rw [hp]
    simp
  · have := update_landmark_some_inv p (maxloop ls).2 m Qt sd p2
      (hupd hcond).1
    omega

/-- Concrete successful run: the empty-map particle pGood processes the
observation ((1, 0), (1, 0)) with threshold 1/2, unit Qt and zero scanner
displacement by creating the landmark (1, 0) with covariance Qt1. -/
lemma pGood_run :
    pGood.update_particle (1, 0) (1, 0) 0 (1 / 2) Qt1 0 = some (pG1, 1 / 2) := by
  have hcc : pGood.compute_correspondence_likelihoods (1, 0) 0 Qt1 0 = some [] := rfl
  unfold Particle.update_particle
  rw [hcc]
  simp only [Option.bind_eq_bind, Option.some_bind]
  rw [if_pos (Or.inl trivial)]
  unfold Particle.initialize_new_landmark
  norm_num [pGood, pG1, Qt1, scanner_to_world, Particle.dh_dlandmark, pyinv,
    Mat2.det, Mat2.inv22, Mat2.mul, Mat2.transpose, Mat2.add,
    Real.cos_zero, Real.sin_zero, Real.sqrt_one]

/-- C1: for every observation processed by Particle.update_particle with
pre-step landmark count N, if N = 0 or the maximum of the N correspondence
likelihoods is strictly below minimum_correspondence_likelihood, a new
landmark is initialized from the observation and the returned weight
contribution is exactly the threshold; otherwise the landmark at the
smallest index attaining the maximum likelihood (first index wins ties) is
EKF-updated and the returned contribution is that maximum likelihood. -/
theorem C1_data_association (p : Particle) (m ms : ℝ × ℝ) (N : ℕ)
    (minl : ℝ) (Qt : Mat2) (sd : ℝ) (p2 : Particle) (w : ℝ)
    (h : p.update_particle m ms N minl Qt sd = some (p2, w)) :
    ∃ ls, p.compute_correspondence_likelihoods m N Qt sd = some ls ∧
      ls.length = N ∧
      ((N = 0 ∨ pymax ls < minl) →
        p.initialize_new_landmark ms Qt sd = some p2 ∧ w = minl) ∧
      (¬(N = 0 ∨ pymax ls < minl) →
        w = pymax ls ∧
        ∃ i, i < N ∧ ls[i]? = some (pymax ls) ∧
          (∀ k, k < i → ∀ v, ls[k]? = some v → v < pymax ls) ∧
          p.update_landmark i m Qt sd = some p2) := by
  obtain ⟨ls, hls, hnew, hupd⟩ :=
    update_particle_some_inv p m ms N minl Qt sd p2 w h
  have hlen := cc_some_length p m N Qt sd ls hls
  have hposl := cc_some_pos p m N Qt sd ls hls
  have hiff : (ls = [] ∨ pymax ls < minl) ↔ (N = 0 ∨ pymax ls < minl) := by
    constructor
    · rintro (hnil | hlt)
      · left; rw [← hlen, hnil]; rfl
      · right; exact hlt
    · rintro (hN | hlt)
      · left; rw [← List.length_eq_zero, hlen]; exact hN
      · right; exact hlt
  refine ⟨ls, hls, hlen, fun hcond => hnew (hiff.mpr hcond), ?_⟩
  intro hcond
  have h2 := hupd (fun hc => hcond (hiff.mp hc))
  have hne : ls ≠ [] := fun he => hcond (hiff.mp (Or.inl he))
  have hmax := maxloop_first_argmax ls hne hposl
  refine ⟨h2.2.trans hmax.1, (maxloop ls).2, by omega, hmax.2.2.1,
    hmax.2.2.2, h2.1⟩

/-- Witness for C1 at the concrete run pGood_run. -/
theorem C1_data_association_witness :
    ∃ ls, pGood.compute_correspondence_likelihoods (1, 0) 0 Qt1 0 = some ls ∧
      ls.length = 0 ∧
      ((0 = 0 ∨ pymax ls < 1 / 2) →
        pGood.initialize_new_landmark (1, 0) Qt1 0 = some pG1 ∧
          (1 : ℝ) / 2 = 1 / 2) ∧
      (¬(0 = 0 ∨ pymax ls < 1 / 2) →
        (1 : ℝ) / 2 = pymax ls ∧
        ∃ i, i < 0 ∧ ls[i]? = some (pymax ls) ∧
          (∀ k, k < i → ∀ v, ls[k]? = some v → v < pymax ls) ∧
          pGood.update_landmark i (1, 0) Qt1 0 = some pG1) :=
  C1_data_association pGood (1, 0) (1, 0) 0 (1 / 2) Qt1 0 pG1 (1 / 2)
    pGood_run

/-- C10: Particle.update_particle never modifies the pose, and it changes
the landmark map in exactly one of two ways: either it appends exactly one
landmark (mean and covariance), leaving every pre-existing landmark
unchanged, or it modifies exactly one existing landmark at an in-range
index, leaving every other landmark and the landmark count unchanged. -/
theorem C10_frame_effect (p : Particle) (m ms : ℝ × ℝ) (N : ℕ) (minl : ℝ)
    (Qt : Mat2) (sd : ℝ) (p2 : Particle) (w : ℝ)
    (h : p.update_particle m ms N minl Qt sd = some (p2, w)) :
    p2.pose = p.pose ∧
    ((∃ lm cov, p2.landmark_positions = p.landmark_positions ++ [lm] ∧
        p2.landmark_covariances = p.landmark_covariances ++ [cov]) ∨
      (∃ i, i < p.landmark_positions.length ∧
        p2.landmark_positions.length = p.landmark_positions.length ∧
        p2.landmark_covariances.length = p.landmark_covariances.length ∧
        ∀ j, j ≠ i →
          p2.landmark_positions[j]? = p.landmark_positions[j]? ∧
          p2.landmark_covariances[j]? = p.landmark_covariances[j]?)) := by
  obtain ⟨ls, hls, hnew, hupd⟩ :=
    update_particle_some_inv p m ms N minl Qt sd p2 w h
  by_cases hcond : ls = [] ∨ pymax ls < minl
  · obtain ⟨hpose, lm, cov, h1, h2⟩ :=
      init_some_inv p ms Qt sd p2 (hnew hcond).1
    exact ⟨hpose, Or.inl ⟨lm, cov, h1, h2⟩⟩
  · obtain ⟨hpose, hlt, hl1, hl2, hother⟩ :=
      update_landmark_some_inv p (maxloop ls).2 m Qt sd p2 (hupd hcond).1
    exact ⟨hpose, Or.inr ⟨(maxloop ls).2, hlt, hl1, hl2, hother⟩⟩

/-- Witness for C10 at the concrete run pGood_run. -/
theorem C10_frame_effect_witness :
    pG1.pose = pGood.pose ∧
    ((∃ lm cov, pG1.landmark_positions = pGood.landmark_positions ++ [lm] ∧
        pG1.landmark_covariances = pGood.landmark_covariances ++ [cov]) ∨
      (∃ i, i < pGood.landmark_positions.length ∧
        pG1.landmark_positions.length = pGood.landmark_positions.length ∧
        pG1.landmark_covariances.length = pGood.landmark_covariances.length ∧
        ∀ j, j ≠ i →
          pG1.landmark_positions[j]? = pGood.landmark_positions[j]? ∧
          pG1.landmark_covariances[j]? = pGood.landmark_covariances[j]?)) :=
  C10_frame_effect pGood (1, 0) (1, 0) 0 (1 / 2) Qt1 0 pG1 (1 / 2) pGood_run

/-! ### Lemmas for the particle weight (claim C2) -/

/-- The source weight fold agrees with collecting the per-observation
contributions and taking their product; every contribution is at least the
threshold. -/
lemma processMeasurements_eq_contribs :
    ∀ (cyls : List ((ℝ × ℝ) × (ℝ × ℝ))) (N : ℕ) (minl : ℝ) (Qt : Mat2)
      (sd : ℝ) (p : Particle) (wt : ℝ) (p2 : Particle) (W : ℝ),
    processMeasurements N minl Qt sd cyls p wt = some (p2, W) →
    ∃ cs, observation_contributions N minl Qt sd cyls p = some (p2, cs) ∧
      W = wt * cs.prod ∧ cs.length = cyls.length ∧ ∀ c ∈ cs, minl ≤ c
  | [], N, minl, Qt, sd, p, wt, p2, W => by
    intro h
    unfold processMeasurements at h
    simp only [Option.some.injEq, Prod.mk.injEq] at h
    refine ⟨[], ?_, ?_, rfl, by simp⟩
    · unfold observation_contributions
      rw [h.1]
    · rw [← h.2]
      simp
  | cyl :: cyls, N, minl, Qt, sd, p, wt, p2, W => by
    intro h
    unfold processMeasurements at h
    simp only [Option.bind_eq_bind, Option.bind_eq_some] at h
    obtain ⟨pw, hup, hrest⟩ := h
    obtain ⟨cs, hobs, hW, hlen, hall⟩ :=
      processMeasurements_eq_contribs cyls N minl Qt sd pw.1 (wt * pw.2) p2
        W hrest
    refine ⟨pw.2 :: cs, ?_, ?_, by simp [hlen], ?_⟩
    · unfold observation_contributions
      simp only [Option.bind_eq_bind, hup, Option.some_bind, hobs]
    · rw [hW]
      simp [mul_assoc]
    · intro c hc
      rcases List.mem_cons.mp hc with hc1 | hc2
      · rw [hc1]
        exact update_particle_weight_ge p cyl.1 cyl.2 N minl Qt sd pw.1
          pw.2 hup
      · exact hall c hc2

/-- A product of values that each dominate a positive threshold dominates
the threshold power. -/
lemma prod_ge_pow : ∀ (cs : List ℝ) (minl : ℝ), 0 < minl →
    (∀ c ∈ cs, minl ≤ c) → minl ^ cs.length ≤ cs.prod ∧ 0 < cs.prod
  | [], minl, _, _ => by simp
  | c :: cs, minl, hmin, hall => by
    obtain ⟨ih1, ih2⟩ := prod_ge_pow cs minl hmin
      (fun x hx => hall x (List.mem_cons_of_mem _ hx))
    have hc : minl ≤ c := hall c (List.mem_cons_self _ _)
    constructor
    · simp only [List.length_cons, List.prod_cons, pow_succ]
      calc minl ^ cs.length * minl ≤ cs.prod * minl := by
            exact mul_le_mul_of_nonneg_right ih1 hmin.le
        _ ≤ cs.prod * c := by
            exact mul_le_mul_of_nonneg_left hc ih2.le
        _ = c * cs.prod := mul_comm _ _
    · simp only [List.prod_cons]
      exact mul_pos (lt_of_lt_of_le hmin hc) ih2

/-- The outer particle loop relates each input particle to its weight via
the measurement fold started at weight 1 with the pre-step landmark
count. -/
lemma uacwLoop_forall2 :
    ∀ (ps : List Particle) (minl : ℝ) (Qt : Mat2) (sd : ℝ)
      (cyls : List ((ℝ × ℝ) × (ℝ × ℝ))) (ps2 : List Particle) (ws : List ℝ),
    uacwLoop minl Qt sd cyls ps = some (ps2, ws) →
    List.Forall₂ (fun p wt => ∃ p2,
      processMeasurements p.number_of_landmarks minl Qt sd cyls p 1 =
        some (p2, wt)) ps ws
  | [], minl, Qt, sd, cyls, ps2, ws => by
    intro h
    unfold uacwLoop at h
    simp only [Option.some.injEq, Prod.mk.injEq] at h
    rw [← h.2]
    exact List.Forall₂.nil
  | p :: ps, minl, Qt, sd, cyls, ps2, ws => by
    intro h
    unfold uacwLoop at h
    simp only [Option.bind_eq_bind, Option.bind_eq_some, Option.some.injEq,
      Prod.mk.injEq] at h
    obtain ⟨pw, hpw, rest, hrest, _, hws⟩ := h
    rw [← hws]
    exact List.Forall₂.cons ⟨pw.1, hpw⟩
      (uacwLoop_forall2 ps minl Qt sd cyls rest.1 rest.2
        (by rw [hrest]))

/-- C2: whenever the correction pass update_and_compute_weights succeeds
and the threshold is positive, each particle weight equals the product of
its per-observation contributions, there is one contribution per
observation, and the weight is at least threshold ^ (number of
observations), hence strictly positive. -/
theorem C2_weights_positive_product (fs : FastSLAM)
    (cyls : List ((ℝ × ℝ) × (ℝ × ℝ))) (sd : ℝ) (ps2 : List Particle)
    (ws : List ℝ) (hmin : 0 < fs.minimum_correspondence_likelihood)
    (h : fs.update_and_compute_weights cyls sd = some (ps2, ws)) :
    List.Forall₂ (fun p wt => ∃ p2 cs,
      observation_contributions p.number_of_landmarks
          fs.minimum_correspondence_likelihood
          (Mat2.diag (fs.measurement_distance_stddev ^ 2)
            (fs.measurement_angle_stddev ^ 2)) sd cyls p = some (p2, cs) ∧
        cs.length = cyls.length ∧ wt = cs.prod ∧
        fs.minimum_correspondence_likelihood ^ cyls.length ≤ wt ∧ 0 < wt)
      fs.particles ws := by
  have hf := uacwLoop_forall2 fs.particles fs.minimum_correspondence_likelihood
    (Mat2.diag (fs.measurement_distance_stddev ^ 2)
      (fs.measurement_angle_stddev ^ 2)) sd cyls ps2 ws h
  refine hf.imp ?_
  intro p wt hp
  obtain ⟨p2, hpm⟩ := hp
  obtain ⟨cs, hobs, hW, hlen, hall⟩ :=
    processMeasurements_eq_contribs cyls p.number_of_landmarks
      fs.minimum_correspondence_likelihood
      (Mat2.diag (fs.measurement_distance_stddev ^ 2)
        (fs.measurement_angle_stddev ^ 2)) sd p 1 p2 wt hpm
  obtain ⟨hpow, hpos⟩ := prod_ge_pow cs fs.minimum_correspondence_likelihood
    hmin hall
  refine ⟨p2, cs, hobs, hlen, by rw [hW, one_mul], ?_, ?_⟩
  · rw [hW, one_mul, ← hlen]
    exact hpow
  · rw [hW, one_mul]
    exact hpos

/-- Concrete successful correction pass: the one-particle filter fsGood
processes the single observation cyl1 into particle pG1 with weight 1/2. -/
lemma fsGood_run :
    fsGood.update_and_compute_weights cyl1 0 = some ([pG1], [1 / 2]) := by
  have hQt : Mat2.diag (fsGood.measurement_distance_stddev ^ 2)
      (fsGood.measurement_angle_stddev ^ 2) = Qt1 := by
    norm_num [fsGood, Mat2.diag, Qt1]
  unfold FastSLAM.update_and_compute_weights
  rw [hQt]
  show uacwLoop (1 / 2) Qt1 0 cyl1 [pGood] = some ([pG1], [1 / 2])
  have h1 : processMeasurements 0 (1 / 2) Qt1 0 [((1, 0), (1, 0))] pGood 1 =
      some (pG1, 1 * (1 / 2)) := by
    unfold processMeasurements
    simp only [Option.bind_eq_bind, pGood_run, Option.some_bind]
    unfold processMeasurements
    rfl
  unfold uacwLoop
  show (do
    let pw ← processMeasurements pGood.number_of_landmarks (1 / 2) Qt1 0
      cyl1 pGood 1
    let rest ← uacwLoop (1 / 2) Qt1 0 cyl1 []
    some (pw.1 :: rest.1, pw.2 :: rest.2)) = some ([pG1], [1 / 2])
  rw [show pGood.number_of_landmarks = 0 from rfl,
    show cyl1 = [((1, 0), (1, 0))] from rfl, h1]
  unfold uacwLoop
  simp only [Option.bind_eq_bind, Option.some_bind, Option.some.injEq,
    Prod.mk.injEq]
  norm_num

/-- Witness for C2 at the concrete run fsGood_run. -/
theorem C2_weights_positive_product_witness :
    List.Forall₂ (fun p wt => ∃ p2 cs,
      observation_contributions p.number_of_landmarks
          fsGood.minimum_correspondence_likelihood
          (Mat2.diag (fsGood.measurement_distance_stddev ^ 2)
            (fsGood.measurement_angle_stddev ^ 2)) 0 cyl1 p = some (p2, cs) ∧
        cs.length = cyl1.length ∧ wt = cs.prod ∧
        fsGood.minimum_correspondence_likelihood ^ cyl1.length ≤ wt ∧
        0 < wt)
      fsGood.particles [1 / 2] :=
  C2_weights_positive_product fsGood cyl1 0 [pG1] [1 / 2]
    (by show (0 : ℝ) < 1 / 2; norm_num) fsGood_run

/-- C5: within one correction step the association candidates are exactly
the pre-step landmarks.  Conjunct 1: the likelihood list computed with
captured count N reads only the first N landmarks, so landmarks appended
at indices N and beyond (in particular those created by earlier
observations of the same step, see conjunct 3) cannot influence any later
observation of the step; update_and_compute_weights passes the same
pre-step N to every observation of a particle by construction.  Conjunct
2: processing an observation never removes landmarks, so the first N
always remain the pre-step candidates.  Conjunct 3: a landmark created in
the new-landmark branch is appended at the end of the list, at an index
not below N. -/
theorem C5_prestep_candidates :
    (∀ (p q : Particle) (m : ℝ × ℝ) (N : ℕ) (Qt : Mat2) (sd : ℝ),
      p.pose = q.pose →
      p.landmark_positions.take N = q.landmark_positions.take N →
      p.landmark_covariances.take N = q.landmark_covariances.take N →
      p.compute_correspondence_likelihoods m N Qt sd =
        q.compute_correspondence_likelihoods m N Qt sd) ∧
    (∀ (p : Particle) (m ms : ℝ × ℝ) (N : ℕ) (minl : ℝ) (Qt : Mat2)
      (sd : ℝ) (p2 : Particle) (w : ℝ),
      p.update_particle m ms N minl Qt sd = some (p2, w) →
      p.landmark_positions.length ≤ p2.landmark_positions.length) ∧
    (∀ (p : Particle) (m ms : ℝ × ℝ) (N : ℕ) (minl : ℝ) (Qt : Mat2)
      (sd : ℝ) (p2 : Particle) (w : ℝ) (ls : List ℝ),
      p.update_particle m ms N minl Qt sd = some (p2, w) →
      p.compute_correspondence_likelihoods m N Qt sd = some ls →
      (ls = [] ∨ pymax ls < minl) →
      ∃ lm cov, p2.landmark_positions = p.landmark_positions ++ [lm] ∧
        p2.landmark_covariances = p.landmark_covariances ++ [cov]) := by
  refine ⟨?_, ?_, ?_⟩
  · intro p q m N Qt sd hpose hpos hcov
    exact cc_take_congr p q m N Qt sd hpose hpos hcov
  · intro p m ms N minl Qt sd p2 w h
    exact update_particle_grows p m ms N minl Qt sd p2 w h
  · intro p m ms N minl Qt sd p2 w ls hup hcc hcond
    obtain ⟨ls2, hls2, hnew, _⟩ :=
      update_particle_some_inv p m ms N minl Qt sd p2 w hup
    have hls : ls2 = ls := by
      rw [hcc] at hls2
      exact (Option.some.inj hls2).symm
    obtain ⟨_, lm, cov, h1, h2⟩ :=
      init_some_inv p ms Qt sd p2 (hnew (hls ▸ hcond)).1
    exact ⟨lm, cov, h1, h2⟩

/-- Witness for C5: conjunct 1 at a particle extended past index N,
conjuncts 2 and 3 at the concrete run pGood_run. -/
theorem C5_prestep_candidates_witness :
    pG1.compute_correspondence_likelihoods (1, 0) 1 Qt1 0 =
      (⟨(0, 0, 0), [(1, 0), (5, 5)], [Qt1, Qt1]⟩ :
        Particle).compute_correspondence_likelihoods (1, 0) 1 Qt1 0 ∧
    pGood.landmark_positions.length ≤ pG1.landmark_positions.length ∧
    ∃ lm cov, pG1.landmark_positions = pGood.landmark_positions ++ [lm] ∧
      pG1.landmark_covariances = pGood.landmark_covariances ++ [cov] :=
  ⟨C5_prestep_candidates.1 pG1 ⟨(0, 0, 0), [(1, 0), (5, 5)], [Qt1, Qt1]⟩
      (1, 0) 1 Qt1 0 rfl rfl rfl,
   C5_prestep_candidates.2.1 pGood (1, 0) (1, 0) 0 (1 / 2) Qt1 0 pG1 (1 / 2)
      pGood_run,
   C5_prestep_candidates.2.2 pGood (1, 0) (1, 0) 0 (1 / 2) Qt1 0 pG1 (1 / 2)
      [] pGood_run rfl (Or.inl rfl)⟩

/-- C4 counterexample: in the straight branch (left = right) the motion
model returns the heading unchanged, so a pose with heading 10 radians is
returned with heading 10, outside (-pi, pi]. -/
theorem C4_heading_counterexample :
    (Particle.g (0, 0, 10) (0, 0) 1).2.2 ∉ Set.Ioc (-Real.pi) Real.pi := by
  have hg : (Particle.g (0, 0, 10) (0, 0) 1).2.2 = 10 := by
    simp [Particle.g]
  rw [hg]
  simp only [Set.mem_Ioc, not_and, not_le]
  intro _
  have hpi : Real.pi < 3.15 := Real.pi_lt_d2
  linarith

/-- C4 amended: in the arc branch (left different from right; a zero width
would raise a ZeroDivisionError in the source) the returned heading is
wrapped by the Python modulo into [-pi, pi) — not (-pi, pi] as claimed —
and in the straight branch (left = right) the heading is returned
unchanged, with no wrapping at all. -/
theorem C4_heading_amended (state : ℝ × ℝ × ℝ) (control : ℝ × ℝ) (w : ℝ) :
    (control.2 ≠ control.1 →
      (Particle.g state control w).2.2 ∈ Set.Ico (-Real.pi) Real.pi) ∧
    (control.2 = control.1 →
      (Particle.g state control w).2.2 = state.2.2) := by
  constructor
  · intro hne
    unfold Particle.g
    rw [if_pos hne]
    have h2pi : (0 : ℝ) < 2 * Real.pi := by positivity
    have h1 := pymod_nonneg
      (state.2.2 + (control.2 - control.1) / w + Real.pi) (2 * Real.pi) h2pi
    have h2 := pymod_lt
      (state.2.2 + (control.2 - control.1) / w + Real.pi) (2 * Real.pi) h2pi
    simp only [Set.mem_Ico]
    constructor
    · linarith
    · linarith
  · intro heq
    unfold Particle.g
    rw [if_neg (by simpa using heq)]

/-- Witness for C4 amended: arc branch at control (0, 1), straight branch
at control (2, 2). -/
theorem C4_heading_amended_witness :
    (Particle.g (0, 0, 0) (0, 1) 1).2.2 ∈ Set.Ico (-Real.pi) Real.pi ∧
    (Particle.g (0, 0, 0) (2, 2) 1).2.2 = 0 :=
  ⟨(C4_heading_amended (0, 0, 0) (0, 1) 1).1 (by norm_num),
   (C4_heading_amended (0, 0, 0) (2, 2) 1).2 rfl⟩

/-! ### Evaluation of the measurement bearing at the C3 failing input -/

lemma cos_three_neg : Real.cos 3 < 0 := by
  apply Real.cos_neg_of_pi_div_two_lt_of_lt
  · linarith [Real.pi_lt_d2]
  · linarith [Real.pi_gt_d6]

lemma sin_three_pos : 0 < Real.sin 3 :=
  Real.sin_pos_of_pos_of_lt_pi (by norm_num) (by linarith [Real.pi_gt_d6])

lemma pyatan2_eval_three : pyatan2 (-Real.sin 3) (Real.cos 3) = -3 := by
  have hc : ¬ (0 : ℝ) < Real.cos 3 := not_lt.mpr cos_three_neg.le
  have hs : ¬ (0 : ℝ) ≤ -Real.sin 3 := by
    simp only [not_le, neg_neg, Left.neg_neg_iff]
    exact sin_three_pos
  unfold pyatan2
  rw [if_neg hc, if_pos cos_three_neg, if_neg hs]
  have h1 : -Real.sin 3 / Real.cos 3 = Real.tan (Real.pi - 3) := by
    have ht : Real.tan (Real.pi - 3) = -Real.tan 3 := by
      rw [show Real.pi - 3 = -(3 - Real.pi) from by ring, Real.tan_neg,
        Real.tan_periodic.sub_eq]
    rw [ht, Real.tan_eq_sin_div_cos]
    ring
  rw [h1, Real.arctan_tan (by linarith [Real.pi_gt_d6])
    (by linarith [Real.pi_lt_d2])]
  ring

lemma h_eval_pC3 :
    Particle.h (0, 0, 0) (Real.cos 3, -Real.sin 3) 0 = (1, -3) := by
  unfold Particle.h
  have hsum : (Real.cos 3 - (0 + 0 * Real.cos 0)) *
        (Real.cos 3 - (0 + 0 * Real.cos 0)) +
      (-Real.sin 3 - (0 + 0 * Real.sin 0)) *
        (-Real.sin 3 - (0 + 0 * Real.sin 0)) = 1 := by
    nlinarith [Real.sin_sq_add_cos_sq 3]
  refine Prod.ext ?_ ?_
  · show Real.sqrt _ = 1
    rw [hsum, Real.sqrt_one]
  · show pymod (pyatan2 (-Real.sin 3 - (0 + 0 * Real.sin 0))
      (Real.cos 3 - (0 + 0 * Real.cos 0)) - 0 + Real.pi) (2 * Real.pi) -
        Real.pi = -3
    rw [show -Real.sin 3 - (0 + 0 * Real.sin 0) = -Real.sin 3 from by ring,
      show Real.cos 3 - (0 + 0 * Real.cos 0) = Real.cos 3 from by ring,
      pyatan2_eval_three,
      show (-3 : ℝ) - 0 + Real.pi = Real.pi - 3 from by ring,
      pymod_eq_self (Real.pi - 3) (2 * Real.pi) (by positivity)
        (by linarith [Real.pi_gt_d6]) (by linarith [Real.pi_gt_d6])]
    ring

/-- C3: the code does not wrap the bearing component of the innovation.
At pose (0, 0, 0) with scanner displacement 0 and the landmark at
(cos 3, -sin 3), the predicted measurement is (1, -3) — a bearing inside
(-pi, pi] — and the observed measurement (1, 3) also has its bearing
inside (-pi, pi]; yet the innovation delta_z used by both the likelihood
exponent (python_slam.py line 106) and the Kalman mean correction (line
171) is (0, 6), whose bearing 6 lies outside (-pi, pi].  Wrapping would
give 6 - 2 pi, about -0.28. -/
theorem C3_innovation_not_wrapped :
    Particle.h (0, 0, 0) (Real.cos 3, -Real.sin 3) 0 = (1, -3) ∧
    (3 : ℝ) ∈ Set.Ioc (-Real.pi) Real.pi ∧
    (-3 : ℝ) ∈ Set.Ioc (-Real.pi) Real.pi ∧
    pC3.delta_z (1, 3) 0 0 = some (0, 6) ∧
    (6 : ℝ) ∉ Set.Ioc (-Real.pi) Real.pi := by
  refine ⟨h_eval_pC3, ?_, ?_, ?_, ?_⟩
  · constructor
    · linarith [Real.pi_gt_d6]
    · linarith [Real.pi_gt_d6]
  · constructor
    · linarith [Real.pi_gt_d6]
    · linarith [Real.pi_gt_d6]
  · unfold Particle.delta_z Particle.h_expected_measurement_for_landmark
    rw [show pC3.landmark_positions[0]? =
      some (Real.cos 3, -Real.sin 3) from rfl]
    simp only [Option.bind_eq_bind, Option.some_bind]
    rw [show pC3.pose = ((0 : ℝ), (0 : ℝ), (0 : ℝ)) from rfl, h_eval_pC3]
    norm_num
  · simp only [Set.mem_Ioc, not_and, not_le]
    intro _
    linarith [Real.pi_lt_d2]

/-! ### Lemmas for the likelihood shape (claim C7) -/

/-- The likelihood kernel on a positive diagonal Ql in closed form. -/
lemma likelihood_form_diag (a c u v : ℝ) (ha : 0 < a) (hc : 0 < c) :
    likelihood_form (Mat2.diag a c) (u, v) =
      1 / (2 * Real.pi * Real.sqrt (a * c)) *
        Real.exp (-(u * u / a + v * v / c) / 2) := by
  have ha' : a ≠ 0 := ha.ne'
  have hc' : c ≠ 0 := hc.ne'
  have hdet : (Mat2.diag a c).det = a * c := by
    simp [Mat2.diag, Mat2.det]
  unfold likelihood_form
  rw [hdet]
  congr 1
  unfold Mat2.inv22 rowMul dot2 Mat2.diag Mat2.det
  simp only
  field_simp
  ring

/-- C7 counterexample: QlC7 is symmetric positive definite, the magnitude
of the first innovation component grows from 0 to 1/2 with the second held
at 1, yet the likelihood strictly increases. -/
theorem C7_monotonicity_counterexample :
    QlC7.b = QlC7.c ∧ 0 < QlC7.det ∧ 0 < QlC7.a ∧ 0 < QlC7.d ∧
    |(0 : ℝ)| < |(-(1 : ℝ) / 2)| ∧
    likelihood_form QlC7 (0, 1) < likelihood_form QlC7 (-(1 / 2), 1) := by
  have hdet : QlC7.det = 3 := by norm_num [QlC7, Mat2.det]
  refine ⟨rfl, by rw [hdet]; norm_num, by norm_num [QlC7],
    by norm_num [QlC7], by norm_num, ?_⟩
  have he1 : dot2 (rowMul (-(1 / 2) * ((0 : ℝ), (1 : ℝ)).1,
      -(1 / 2) * ((0 : ℝ), (1 : ℝ)).2) QlC7.inv22) (0, 1) = -(1 / 3) := by
    norm_num [dot2, rowMul, Mat2.inv22, QlC7, Mat2.det]
  have he2 : dot2 (rowMul (-(1 / 2) * ((-(1 / 2) : ℝ), (1 : ℝ)).1,
      -(1 / 2) * ((-(1 / 2) : ℝ), (1 : ℝ)).2) QlC7.inv22)
      (-(1 / 2), 1) = -(1 / 4) := by
    norm_num [dot2, rowMul, Mat2.inv22, QlC7, Mat2.det]
  unfold likelihood_form
  rw [he1, he2, hdet]
  have hC : 0 < 1 / (2 * Real.pi * Real.sqrt 3) := by positivity
  exact mul_lt_mul_of_pos_left (Real.exp_lt_exp.mpr (by norm_num)) hC

/-- C7 amended: the likelihood at zero innovation equals the normalization
constant 1 / (2 pi sqrt (det Ql)) for every Ql (conjunct 1, and conjunct 2
links the kernel to the code function wl_likelihood_of_correspondence),
and the strict per-component monotonicity holds for diagonal Ql with
positive entries (conjuncts 3 and 4) — but not, as the counterexample
shows, for every symmetric positive-definite Ql. -/
theorem C7_likelihood_amended (Ql : Mat2) (a c z1 z1' z2 z2' : ℝ)
    (p : Particle) (m : ℝ × ℝ) (n : ℕ) (Qt : Mat2) (sd : ℝ) (dz : ℝ × ℝ)
    (hql : Mat2 × Mat2) :
    (likelihood_form Ql (0, 0) = 1 / (2 * Real.pi * Real.sqrt Ql.det)) ∧
    (p.delta_z m n sd = some dz →
      p.H_Ql_jacobian_and_measurement_covariance_for_landmark n Qt sd =
        some hql → 0 < (hql.2).det →
      p.wl_likelihood_of_correspondence m n Qt sd =
        some (likelihood_form hql.2 dz)) ∧
    (0 < a → 0 < c → |z1| < |z1'| →
      likelihood_form (Mat2.diag a c) (z1', z2) <
        likelihood_form (Mat2.diag a c) (z1, z2)) ∧
    (0 < a → 0 < c → |z2| < |z2'| →
      likelihood_form (Mat2.diag a c) (z1, z2') <
        likelihood_form (Mat2.diag a c) (z1, z2)) := by
  refine ⟨?_, ?_, ?_, ?_⟩
  · unfold likelihood_form
    have h0 : dot2 (rowMul (-(1 / 2) * ((0 : ℝ), (0 : ℝ)).1,
        -(1 / 2) * ((0 : ℝ), (0 : ℝ)).2) Ql.inv22) (0, 0) = 0 := by
      simp [dot2, rowMul]
    rw [h0, Real.exp_zero, mul_one]
  · intro hdz hhql hdet
    exact wl_eq_likelihood_form p m n Qt sd dz hql hdz hhql hdet
  · intro ha hc hz
    rw [likelihood_form_diag a c z1' z2 ha hc,
      likelihood_form_diag a c z1 z2 ha hc]
    have hC : 0 < 1 / (2 * Real.pi * Real.sqrt (a * c)) := by positivity
    refine mul_lt_mul_of_pos_left (Real.exp_lt_exp.mpr ?_) hC
    have hsq : z1 * z1 < z1' * z1' := by
      have h1 : |z1| * |z1| < |z1'| * |z1'| :=
        mul_lt_mul'' hz hz (abs_nonneg _) (abs_nonneg _)
      rwa [abs_mul_abs_self, abs_mul_abs_self] at h1
    have hdiv : z1 * z1 / a < z1' * z1' / a :=
      (div_lt_div_iff_of_pos_right ha).mpr hsq
    linarith
  · intro ha hc hz
    rw [likelihood_form_diag a c z1 z2' ha hc,
      likelihood_form_diag a c z1 z2 ha hc]
    have hC : 0 < 1 / (2 * Real.pi * Real.sqrt (a * c)) := by positivity
    refine mul_lt_mul_of_pos_left (Real.exp_lt_exp.mpr ?_) hC
    have hsq : z2 * z2 < z2' * z2' := by
      have h1 : |z2| * |z2| < |z2'| * |z2'| :=
        mul_lt_mul'' hz hz (abs_nonneg _) (abs_nonneg _)
      rwa [abs_mul_abs_self, abs_mul_abs_self] at h1
    have hdiv : z2 * z2 / c < z2' * z2' / c :=
      (div_lt_div_iff_of_pos_right hc).mpr hsq
    linarith

/-! ### Concrete evaluations at the unit landmark (1, 0) from the origin -/

lemma dh_unit : Particle.dh_dlandmark (0, 0, 0) (1, 0) 0 = Mat2.id2 := by
  unfold Particle.dh_dlandmark Mat2.id2
  norm_num [Real.cos_zero, Real.sin_zero, Real.sqrt_one]

lemma h_unit : Particle.h (0, 0, 0) (1, 0) 0 = (1, 0) := by
  unfold Particle.h
  have hata : pyatan2 ((0 : ℝ) - (0 + 0 * Real.sin 0))
      ((1 : ℝ) - (0 + 0 * Real.cos 0)) = 0 := by
    norm_num [pyatan2, Real.arctan_zero]
  refine Prod.ext ?_ ?_
  · show Real.sqrt _ = 1
    norm_num [Real.cos_zero, Real.sin_zero, Real.sqrt_one]
  · show pymod (pyatan2 _ _ - 0 + Real.pi) (2 * Real.pi) - Real.pi = 0
    rw [hata,
      show (0 : ℝ) - 0 + Real.pi = Real.pi from by ring,
      pymod_eq_self Real.pi (2 * Real.pi) (by positivity) Real.pi_pos.le
        (by linarith [Real.pi_pos])]
    ring

lemma delta_z_pG1 : pG1.delta_z (1, 0) 0 0 = some (0, 0) := by
  unfold Particle.delta_z Particle.h_expected_measurement_for_landmark
  rw [show pG1.landmark_positions[0]? = some ((1 : ℝ), (0 : ℝ)) from rfl]
  simp only [Option.bind_eq_bind, Option.some_bind]
  rw [show pG1.pose = ((0 : ℝ), (0 : ℝ), (0 : ℝ)) from rfl, h_unit]
  norm_num

lemma HQl_pG1 :
    pG1.H_Ql_jacobian_and_measurement_covariance_for_landmark 0 Qt1 0 =
      some (Mat2.id2, ⟨2, 0, 0, 2⟩) := by
  unfold Particle.H_Ql_jacobian_and_measurement_covariance_for_landmark
  rw [show pG1.landmark_positions[0]? = some ((1 : ℝ), (0 : ℝ)) from rfl]
  simp only [Option.bind_eq_bind, Option.some_bind]
  rw [show pG1.landmark_covariances[0]? = some Qt1 from rfl]
  simp only [Option.some_bind]
  rw [show pG1.pose = ((0 : ℝ), (0 : ℝ), (0 : ℝ)) from rfl, dh_unit]
  norm_num [Mat2.mul, Mat2.add, Mat2.transpose, Mat2.id2, Qt1]

/-- Witness for C7 amended: normalization at Qt1, the code link at the
particle pG1, and both per-component monotonicity conjuncts on the unit
diagonal covariance. -/
theorem C7_likelihood_amended_witness :
    (likelihood_form Qt1 (0, 0) = 1 / (2 * Real.pi * Real.sqrt Qt1.det)) ∧
    pG1.wl_likelihood_of_correspondence (1, 0) 0 Qt1 0 =
      some (likelihood_form (⟨2, 0, 0, 2⟩ : Mat2) (0, 0)) ∧
    likelihood_form (Mat2.diag 1 1) (1, 0) <
      likelihood_form (Mat2.diag 1 1) (0, 0) ∧
    likelihood_form (Mat2.diag 1 1) (0, 1) <
      likelihood_form (Mat2.diag 1 1) (0, 0) := by
  obtain ⟨h1, h2, h3, h4⟩ := C7_likelihood_amended Qt1 1 1 0 1 0 1 pG1
    (1, 0) 0 Qt1 0 (0, 0) (Mat2.id2, ⟨2, 0, 0, 2⟩)
  exact ⟨h1, h2 delta_z_pG1 HQl_pG1 (by norm_num [Mat2.det]),
    h3 one_pos one_pos (by norm_num),
    h4 one_pos one_pos (by norm_num)⟩

/-! ### The singular innovation covariance of pBad (claim C8) -/

lemma delta_z_pBad : pBad.delta_z (1, 0) 0 0 = some (0, 0) := by
  unfold Particle.delta_z Particle.h_expected_measurement_for_landmark
  rw [show pBad.landmark_positions[0]? = some ((1 : ℝ), (0 : ℝ)) from rfl]
  simp only [Option.bind_eq_bind, Option.some_bind]
  rw [show pBad.pose = ((0 : ℝ), (0 : ℝ), (0 : ℝ)) from rfl, h_unit]
  norm_num

lemma HQl_pBad :
    pBad.H_Ql_jacobian_and_measurement_covariance_for_landmark 0 Qt1 0 =
      some (Mat2.id2, ⟨0, 0, 0, 0⟩) := by
  unfold Particle.H_Ql_jacobian_and_measurement_covariance_for_landmark
  rw [show pBad.landmark_positions[0]? = some ((1 : ℝ), (0 : ℝ)) from rfl]
  simp only [Option.bind_eq_bind, Option.some_bind]
  rw [show pBad.landmark_covariances[0]? = some covBad from rfl]
  simp only [Option.some_bind]
  rw [show pBad.pose = ((0 : ℝ), (0 : ℝ), (0 : ℝ)) from rfl, dh_unit]
  norm_num [Mat2.mul, Mat2.add, Mat2.transpose, Mat2.id2, Qt1, covBad]

/-- The likelihood evaluation against the landmark of pBad raises: the
innovation covariance is exactly the zero matrix, so the Python source
divides 1.0 by 2 pi sqrt (det Ql) = 0.0 (and np.linalg.inv (Ql) would
raise LinAlgError as well). -/
lemma wl_pBad :
    pBad.wl_likelihood_of_correspondence (1, 0) 0 Qt1 0 = none := by
  unfold Particle.wl_likelihood_of_correspondence
  rw [delta_z_pBad, HQl_pBad]
  simp only [Option.bind_eq_bind, Option.some_bind]
  have hdet : (Mat2.det ⟨0, 0, 0, 0⟩ : ℝ) = 0 := by norm_num [Mat2.det]
  rw [if_neg (by rw [hdet]; exact lt_irrefl 0),
    if_pos (by rw [hdet, Real.sqrt_zero, mul_zero])]

/-- The whole correction pass of fsBad aborts: the first particle raises
while evaluating its likelihood list, and no other particle or observation
is processed. -/
lemma fsBad_run : fsBad.update_and_compute_weights cyl1 0 = none := by
  have hQt : Mat2.diag (fsBad.measurement_distance_stddev ^ 2)
      (fsBad.measurement_angle_stddev ^ 2) = Qt1 := by
    norm_num [fsBad, Mat2.diag, Qt1]
  unfold FastSLAM.update_and_compute_weights
  rw [hQt]
  show uacwLoop (1 / 2) Qt1 0 cyl1 [pBad, pGood] = none
  have hcc : pBad.compute_correspondence_likelihoods (1, 0) 1 Qt1 0 =
      none := by
    unfold Particle.compute_correspondence_likelihoods Particle.ccFrom
    rw [wl_pBad]
    rfl
  have hup : pBad.update_particle (1, 0) (1, 0) 1 (1 / 2) Qt1 0 = none := by
    unfold Particle.update_particle
    rw [hcc]
    rfl
  have hpm : processMeasurements 1 (1 / 2) Qt1 0 [((1, 0), (1, 0))] pBad 1 =
      none := by
    unfold processMeasurements
    simp only [Option.bind_eq_bind, hup, Option.none_bind]
  unfold uacwLoop
  rw [show pBad.number_of_landmarks = 1 from rfl,
    show cyl1 = [((1, 0), (1, 0))] from rfl]
  simp only [Option.bind_eq_bind, hpm, Option.none_bind]

/-- C8: a singular innovation covariance is not a local, recoverable
condition in the code.  The filter fsBad holds two particles; the first
produces an exactly singular Ql for the single observation (the source
would raise an uncaught ZeroDivisionError computing 1.0 / (2 pi sqrt (det
Ql)), or LinAlgError in np.linalg.inv), and the entire correction pass
returns no result — the second particle, which on its own processes the
same observation successfully (second conjunct), is never reached.  There
is no exception handling anywhere in python_slam.py. -/
theorem C8_singular_not_local :
    fsBad.update_and_compute_weights cyl1 0 = none ∧
    fsGood.update_and_compute_weights cyl1 0 = some ([pG1], [1 / 2]) :=
  ⟨fsBad_run, fsGood_run⟩

/-! ### Termination and conservation of resample (claim C6) -/

lemma spin_mono : ∀ (w : List ℝ) (fuel : ℕ) (o : ℝ) (i : ℕ) (r : ℝ × ℕ),
    spin w fuel o i = some r → spin w (fuel + 1) o i = some r
  | w, 0, _, _, _ => by
    intro h
    exact absurd h (by simp [spin])
  | w, fuel + 1, o, i, r => by
    intro h
    unfold spin at h ⊢
    split at h
    · rename_i hcond
      rw [if_pos hcond]
      exact spin_mono w fuel _ _ r h
    · rename_i hcond
      rw [if_neg hcond]
      exact h

lemma spin_mono_le (w : List ℝ) (f1 : ℕ) :
    ∀ (k : ℕ) (o : ℝ) (i : ℕ) (r : ℝ × ℕ),
    spin w f1 o i = some r → spin w (f1 + k) o i = some r
  | 0, _, _, _ => fun h => h
  | k + 1, o, i, r => fun h =>
    spin_mono w (f1 + k) o i r (spin_mono_le w f1 k o i r h)

/-- With every weight bounded below by b > 0, the resampling while loop
terminates within ceil (offset / b) + 1 iterations, ends at an in-range
index, and leaves a residual offset of at most the weight at that index. -/
lemma spin_succeeds (w : List ℝ) (b : ℝ) (hb : 0 < b)
    (hlb : ∀ x ∈ w, b ≤ x) :
    ∀ (k : ℕ) (o : ℝ) (i : ℕ), i < w.length → o ≤ b * ((k : ℝ) + 1) →
    ∃ o2 i2, spin w (k + 1) o i = some (o2, i2) ∧ i2 < w.length ∧
      o2 ≤ w.getD i2 0
  | 0, o, i => by
    intro hi ho
    have hwi : b ≤ w.getD i 0 := by
      apply hlb
      rw [List.getD_eq_getElem w 0 hi]
      exact List.getElem_mem hi
    unfold spin
    rw [if_neg (by push_cast at ho; push_neg; linarith)]
    exact ⟨o, i, rfl, hi, by push_cast at ho; linarith⟩
  | k + 1, o, i => by
    intro hi ho
    by_cases hcond : o > w.getD i 0
    · have hwi : b ≤ w.getD i 0 := by
        apply hlb
        rw [List.getD_eq_getElem w 0 hi]
        exact List.getElem_mem hi
      have hbound : o - w.getD i 0 ≤ b * ((k : ℝ) + 1) := by
        have hexp : b * (((k : ℕ) + 1 : ℝ) + 1) = b * ((k : ℝ) + 1) + b := by
          ring
        push_cast at ho
        linarith
      have hilt : (i + 1) % w.length < w.length :=
        Nat.mod_lt _ (by omega)
      obtain ⟨o2, i2, hs, hi2, ho2⟩ := spin_succeeds w b hb hlb k
        (o - w.getD i 0) ((i + 1) % w.length) hilt hbound
      unfold spin
      rw [if_pos hcond]
      exact ⟨o2, i2, hs, hi2, ho2⟩
    · unfold spin
      rw [if_neg hcond]
      push_neg at hcond
      exact ⟨o, i, rfl, hi, hcond⟩

/-- The outer resampling loop succeeds with uniform fuel K + 1 whenever
3 M fits under b (K + 1), producing one particle per sampled step. -/
lemma resampleLoop_succeeds (particles : List Particle) (w : List ℝ)
    (b M : ℝ) (hb : 0 < b) (hlb : ∀ x ∈ w, b ≤ x) (hub : ∀ x ∈ w, x ≤ M)
    (K : ℕ) (hK : 3 * M ≤ b * ((K : ℝ) + 1)) :
    ∀ (steps : List ℝ) (o : ℝ) (i : ℕ), i < w.length → o ≤ M →
    (∀ s ∈ steps, 0 ≤ s ∧ s ≤ 2 * M) →
    ∃ ps, resampleLoop particles w (K + 1) steps o i = some ps ∧
      ps.length = steps.length
  | [], o, i => by
    intro _ _ _
    exact ⟨[], rfl, rfl⟩
  | step :: steps, o, i => by
    intro hi ho hsteps
    have hbound : o + step ≤ b * ((K : ℝ) + 1) := by
      have hs := hsteps step (List.mem_cons_self _ _)
      linarith
    obtain ⟨o2, i2, hs, hi2, ho2⟩ :=
      spin_succeeds w b hb hlb K (o + step) i hi hbound
    have hw2 : w.getD i2 0 ≤ M := by
      apply hub
      rw [List.getD_eq_getElem w 0 hi2]
      exact List.getElem_mem hi2
    obtain ⟨ps, hps, hlenps⟩ := resampleLoop_succeeds particles w b M hb
      hlb hub K hK steps o2 i2 hi2 (le_trans ho2 hw2)
      (fun s hs' => hsteps s (List.mem_cons_of_mem _ hs'))
    refine ⟨particles.getD i2 default :: ps, ?_, by simp [hlenps]⟩
    unfold resampleLoop
    rw [hs]
    simp only [Option.bind_eq_bind, Option.some_bind, hps]

/-- The correction pass preserves the particle count and produces one
weight per particle. -/
lemma uacwLoop_lengths : ∀ (ps : List Particle) (minl : ℝ) (Qt : Mat2)
    (sd : ℝ) (cyls : List ((ℝ × ℝ) × (ℝ × ℝ))) (ps2 : List Particle)
    (ws : List ℝ),
    uacwLoop minl Qt sd cyls ps = some (ps2, ws) →
    ps2.length = ps.length ∧ ws.length = ps.length
  | [], minl, Qt, sd, cyls, ps2, ws => by
    intro h
    unfold uacwLoop at h
    simp only [Option.some.injEq, Prod.mk.injEq] at h
    rw [← h.1, ← h.2]
    exact ⟨rfl, rfl⟩
  | p :: ps, minl, Qt, sd, cyls, ps2, ws => by
    intro h
    unfold uacwLoop at h
    simp only [Option.bind_eq_bind, Option.bind_eq_some, Option.some.injEq,
      Prod.mk.injEq] at h
    obtain ⟨pw, _, rest, hrest, hps2, hws⟩ := h
    obtain ⟨ih1, ih2⟩ := uacwLoop_lengths ps minl Qt sd cyls rest.1 rest.2
      (by rw [hrest])
    rw [← hps2, ← hws]
    constructor
    · simp [ih1]
    · simp [ih2]

/-- C6: for a weight vector matching the particle count with all entries
strictly positive (and admissible randomness: an in-range start index and
nonnegative sampled steps bounded by twice a weight bound M, as
random.uniform (0, 2 max (weights)) produces), resample terminates — some
fuel makes the fuel-indexed model succeed — and returns exactly as many
particles as the filter holds.  Conjuncts 2 and 3: the prediction step and
the correction pass preserve the particle count as well, so the count is
constant across predict / correct / resample cycles. -/
theorem C6_resample_count (fs : FastSLAM) (weights : List ℝ) (si : ℕ)
    (steps : List ℝ) (M : ℝ)
    (hlen : weights.length = fs.particles.length)
    (hpos : 0 < fs.particles.length)
    (hsi : si < weights.length)
    (hw : ∀ x ∈ weights, 0 < x)
    (hM : ∀ x ∈ weights, x ≤ M)
    (hslen : steps.length = fs.particles.length)
    (hsteps : ∀ s ∈ steps, 0 ≤ s ∧ s ≤ 2 * M) :
    (∃ fuel ps, fs.resample weights si steps fuel = some ps ∧
      ps.length = fs.particles.length) ∧
    (∀ ncs : List (ℝ × ℝ), ncs.length = fs.particles.length →
      (fs.predict_sampled ncs).particles.length = fs.particles.length) ∧
    (∀ (cyls : List ((ℝ × ℝ) × (ℝ × ℝ))) (sd : ℝ) (ps2 : List Particle)
      (ws : List ℝ),
      fs.update_and_compute_weights cyls sd = some (ps2, ws) →
      ps2.length = fs.particles.length ∧
      ws.length = fs.particles.length) := by
  refine ⟨?_, ?_, ?_⟩
  · obtain ⟨b, hb, hlb⟩ := exists_pos_lb weights hw
    have hne : weights ≠ [] := by
      intro hnil
      rw [hnil] at hlen
      simp at hlen
      omega
    have hbM : b ≤ M := by
      obtain ⟨x, hx⟩ := List.exists_mem_of_ne_nil weights hne
      exact le_trans (hlb x hx) (hM x hx)
    set K := ⌈3 * M / b⌉₊ with hK
    have hKb : 3 * M ≤ b * ((K : ℝ) + 1) := by
      have h1 : 3 * M / b ≤ (K : ℝ) := Nat.le_ceil _
      have h2 : 3 * M / b * b ≤ (K : ℝ) * b :=
        mul_le_mul_of_nonneg_right h1 hb.le
      have h3 : 3 * M / b * b = 3 * M := by field_simp
      nlinarith
    obtain ⟨ps, hps, hlenps⟩ := resampleLoop_succeeds fs.particles weights
      b M hb hlb hM K hKb steps 0 si hsi (by linarith) hsteps
    exact ⟨K + 1, ps, hps, by rw [hlenps, hslen]⟩
  · intro ncs hncs
    unfold FastSLAM.predict_sampled
    simp [List.length_zip, hncs]
  · intro cyls sd ps2 ws h
    unfold FastSLAM.update_and_compute_weights at h
    exact uacwLoop_lengths fs.particles fs.minimum_correspondence_likelihood
      (Mat2.diag (fs.measurement_distance_stddev ^ 2)
        (fs.measurement_angle_stddev ^ 2)) sd cyls ps2 ws h

/-- Witness for C6 at the one-particle filter fsGood with weight vector
[1], start index 0 and one sampled step 0. -/
theorem C6_resample_count_witness :
    (∃ fuel ps, fsGood.resample [1] 0 [0] fuel = some ps ∧
      ps.length = fsGood.particles.length) ∧
    (∀ ncs : List (ℝ × ℝ), ncs.length = fsGood.particles.length →
      (fsGood.predict_sampled ncs).particles.length =
        fsGood.particles.length) ∧
    (∀ (cyls : List ((ℝ × ℝ) × (ℝ × ℝ))) (sd : ℝ) (ps2 : List Particle)
      (ws : List ℝ),
      fsGood.update_and_compute_weights cyls sd = some (ps2, ws) →
      ps2.length = fsGood.particles.length ∧
      ws.length = fsGood.particles.length) :=
  C6_resample_count fsGood [1] 0 [0] 1 rfl Nat.one_pos Nat.one_pos
    (by simp) (by simp) rfl (by norm_num)
